import Mathlib

/-!
Verification of the timeline compositor, generation client, audio decoder and
text auto-fit layout of the bilingual slide-lesson application.

The definitions below are shallow embeddings of the TypeScript source:
`App.tsx` (`handleDownloadVideo`, `createTextCache`, `calculateLines`, the
regeneration handlers), `services/geminiService.ts` (`withRetry`,
`splitTextIntoSentences`) and `hooks/useWebAudioPlayer.ts`
(`getAudioBufferFromBase64`).  Machine floats of the source are modelled with
`ℚ`; base64 payloads are modelled at the byte level (`atob` is a bijection
between valid base64 strings and byte sequences, and every property below is
stated about the decoded bytes).
-/

namespace Chuha

/-! ## Data model (types.ts) -/

/-- Shallow embedding of the `Slide` record from `types.ts`.  `imageUrl` and
`audioData` are nullable in the source, hence `Option`. -/
structure Slide where
  id : Nat
  english : String
  hindi : String
  imageUrl : Option String
  script : String
  audioData : Option String
deriving DecidableEq, Repr

/-! ## Timeline builder (`handleDownloadVideo`, App.tsx) -/

/-- The tag of a timeline event: the source builds objects
`{type:'slide', index}` and `{type:'transition', from, to}`. -/
inductive EventKind where
  | slide (index : Nat)
  | transition (fromIndex toIndex : Nat)
deriving DecidableEq, Repr

/-- One element of the `timeline` array built in `handleDownloadVideo`. -/
structure TimelineEvent where
  kind : EventKind
  startTime : ℚ
  duration : ℚ
deriving DecidableEq, Repr

/-- Returns `true` exactly on slide events (the source tag `type` being the string slide). -/
def EventKind.isSlide : EventKind → Bool
  | .slide _ => true
  | .transition _ _ => false

/-- The configured transition length in `handleDownloadVideo`:
`const transitionDuration = 0`. -/
def transitionDuration : ℚ := 0

/-- Per-slide duration from `handleDownloadVideo`:
`if (!slide.audioData) return 3.0; return buffer.duration > 0.5 ?
buffer.duration + 0.5 : 3.0`.  The argument is the decoded audio duration
when narration audio is present. -/
def slideDuration (audioDuration : Option ℚ) : ℚ :=
  match audioDuration with
  | none => 3
  | some d => if 1/2 < d then d + 1/2 else 3

/-- The timeline-construction loop of `handleDownloadVideo`, carrying the
slide index `i` and the running `currentTime` `t`; a transition event is
appended after every slide except the last (`i < slides.length - 1`).
Returns the event list together with the final `currentTime`
(= `totalDuration` when started at 0). -/
def buildTimelineGo (td : ℚ) : List ℚ → Nat → ℚ → List TimelineEvent × ℚ
  | [], _, t => ([], t)
  | [d], i, t => ([⟨.slide i, t, d⟩], t + d)
  | d :: d2 :: ds, i, t =>
      (⟨.slide i, t, d⟩ :: ⟨.transition i (i + 1), t + d, td⟩ ::
        (buildTimelineGo td (d2 :: ds) (i + 1) (t + d + td)).1,
       (buildTimelineGo td (d2 :: ds) (i + 1) (t + d + td)).2)

/-- The full timeline construction: events plus `totalDuration`. -/
def buildTimeline (durations : List ℚ) (td : ℚ) : List TimelineEvent × ℚ :=
  buildTimelineGo td durations 0 0

/-- The active-event lookup of the render loop:
`timeline.find(e => elapsed >= e.startTime && elapsed < e.startTime + e.duration)`. -/
def findActiveEvent (timeline : List TimelineEvent) (elapsed : ℚ) :
    Option TimelineEvent :=
  timeline.find? fun e =>
    decide (e.startTime ≤ elapsed) && decide (elapsed < e.startTime + e.duration)

/-- Placeholder event used only as the `getD` default in statements. -/
def dummyEvent : TimelineEvent := ⟨.slide 0, 0, 0⟩

/-! ## Retry policy (`withRetry`, geminiService.ts)

The loop is embedded as a trace semantics: the `k`-th attempt's outcome is
`f k`; the trace records the returned value (`none` models the dead
`"Retry logic failed unexpectedly"` path, reached only when `maxRetries = 0`),
how many times the operation ran, and the backoff delays slept between
attempts (in milliseconds). -/

/-- Observable outcome of one `withRetry` invocation. -/
structure RetryTrace (ε α : Type) where
  result : Option (Except ε α)
  executions : Nat
  delays : List Nat

/-- The `while (attempt < maxRetries)` loop of `withRetry`, structural on the
number of remaining attempts.  On a caught error the source increments
`attempt`; if it reached `maxRetries` the error is rethrown, otherwise it
sleeps `initialDelay * Math.pow(2, attempt - 1)` and retries. -/
def retryGo {ε α : Type} (f : Nat → Except ε α) (initialDelay : Nat)
    (attempt : Nat) : Nat → RetryTrace ε α
  | 0 => ⟨none, 0, []⟩
  | remaining + 1 =>
      match f attempt with
      | .ok v => ⟨some (.ok v), 1, []⟩
      | .error e =>
          if remaining = 0 then ⟨some (.error e), 1, []⟩
          else
            let r := retryGo f initialDelay (attempt + 1) remaining
            ⟨r.result, r.executions + 1, initialDelay * 2 ^ attempt :: r.delays⟩

/-- The function `withRetry asyncFn maxRetries initialDelay` from geminiService.ts. -/
def withRetry {ε α : Type} (f : Nat → Except ε α)
    (maxRetries initialDelay : Nat) : RetryTrace ε α :=
  retryGo f initialDelay 0 maxRetries

/-! ## Sentence splitting (`splitTextIntoSentences`, geminiService.ts) -/

/-- The character class of the fallback regex `/[\n.]+/`. -/
def isBreakChar (c : Char) : Bool := c = '\n' || c = '.'

/-- JavaScript `str.split(/[\n.]+/)` semantics: the pieces between maximal
runs of break characters, with an empty piece at either end when the string
starts or ends with a break character, and `[""]` on the empty string. -/
def splitRuns (p : Char → Bool) : List Char → List (List Char)
  | [] => [[]]
  | c :: cs =>
      let r := splitRuns p cs
      if p c then
        match cs with
        | [] => [] :: r
        | c2 :: _ => if p c2 then r else [] :: r
      else
        match r with
        | [] => [[c]]
        | t :: ts => (c :: t) :: ts

/-- JavaScript `String.prototype.trim`: whitespace stripped from both ends. -/
def trimChars (l : List Char) : List Char :=
  ((l.dropWhile Char.isWhitespace).reverse.dropWhile Char.isWhitespace).reverse

/-- The fallback branch of `splitTextIntoSentences`:
`text.split(/[\n.]+/).filter(line => line.trim().length > 2)`. -/
def fallbackSplit (text : String) : List String :=
  ((splitRuns isBreakChar text.data).map fun cs => String.mk cs).filter
    fun s => decide (2 < (trimChars s.data).length)

/-- The function `splitTextIntoSentences`.  The provider interaction is abstracted into
`providerResult`: `some sentences` models a call whose response parsed as an
array of strings (the `try` branch then keeps the non-blank entries,
`sentences.filter(s => s.trim() !== '')`); `none` models any thrown
error — request failure, JSON parse failure or failed validation — all of
which land in the `catch` branch running the local fallback splitter. -/
def splitTextIntoSentences (text : String)
    (providerResult : Option (List String)) : List String :=
  match providerResult with
  | some sentences => sentences.filter fun s => decide (trimChars s.data ≠ [])
  | none => fallbackSplit text

/-! ## Single-slide regeneration (App.tsx handlers)

Each handler ends in
`setSlides(prev => prev.map(s => s.id === slide.id ? { ...s, <fields> } : s))`;
the functions below are those `map` updates. -/

/-- From `handleRegenerateImage`: replace `imageUrl` on the slide with the target id. -/
def applyRegenerateImage (slides : List Slide) (targetId : Nat)
    (newImageUrl : Option String) : List Slide :=
  slides.map fun s =>
    if s.id = targetId then { s with imageUrl := newImageUrl } else s

/-- From `handleRegenerateTranslation`: replace `hindi` on the slide with the target id. -/
def applyRegenerateTranslation (slides : List Slide) (targetId : Nat)
    (newHindi : String) : List Slide :=
  slides.map fun s =>
    if s.id = targetId then { s with hindi := newHindi } else s

/-- From `handleRegenerateScript`: replace `script` and `audioData` on the slide
with the target id. -/
def applyRegenerateScript (slides : List Slide) (targetId : Nat)
    (newScript : String) (newAudioData : Option String) : List Slide :=
  slides.map fun s =>
    if s.id = targetId then { s with script := newScript, audioData := newAudioData }
    else s

/-! ## PCM decoder (`getAudioBufferFromBase64`, useWebAudioPlayer.ts)

`decode` (atob into a `Uint8Array`) is modelled as the identity on the byte
sequence, so the decoder below takes raw bytes.  `new Int16Array(data.buffer)`
throws a `RangeError` when the buffer's byte length is not a multiple of 2
(ECMAScript TypedArray constructor), and
`ctx.createBuffer(1, frameCount, 24000)` throws `NotSupportedError` when
`frameCount` is zero (Web Audio `createBuffer` rejects a zero length); both
failure paths are `none`.  Samples are little-endian signed 16-bit values
divided by 32768. -/

/-- Reinterpret a little-endian byte pair as a signed 16-bit integer, as
`new Int16Array(buffer)` does on a little-endian platform. -/
def bytesToInt16 (b0 b1 : Nat) : Int :=
  if b0 + 256 * b1 < 32768 then ((b0 + 256 * b1 : Nat) : Int)
  else ((b0 + 256 * b1 : Nat) : Int) - 65536

/-- The per-sample loop `channelData[i] = dataInt16[i] / 32768.0` over the
byte pairs of the payload. -/
def pairsToSamples : List Nat → List ℚ
  | b0 :: b1 :: rest => ((bytesToInt16 b0 b1 : ℚ) / 32768) :: pairsToSamples rest
  | _ => []

/-- The `AudioBuffer` produced by `ctx.createBuffer(1, frameCount, 24000)`
and the sample-filling loop. -/
structure DecodedPcm where
  samples : List ℚ
  sampleRate : Nat
  numChannels : Nat
deriving DecidableEq, Repr

/-- The function `getAudioBufferFromBase64`, at the byte level.  Fails (`none`) when the
byte length is odd (`Int16Array` constructor) or when the frame count
`dataInt16.length / numChannels` is zero (`createBuffer`). -/
def getAudioBufferFromBase64 (data : List Nat) : Option DecodedPcm :=
  if data.length % 2 ≠ 0 then none
  else if data.length / 2 = 0 then none
  else some ⟨pairsToSamples data, 24000, 1⟩

/-- Modelled from the spec: the provider-side PCM encoder is not part of this
repository (narration audio arrives already encoded); §6 fixes its format as
"base64-encoded raw 16-bit signed little-endian PCM".  A sample in `[-1, 1]`
is quantised to a signed 16-bit integer (scaled by 32768 and clamped to the
representable range). -/
def encodeSample (s : ℚ) : Int :=
  max (-32768) (min 32767 ⌊s * 32768⌋)

/-- Modelled from the spec: a signed 16-bit value serialised as two
little-endian bytes (two's complement). -/
def int16ToBytes (v : Int) : List Nat :=
  [(v % 65536).toNat % 256, (v % 65536).toNat / 256]

/-- Modelled from the spec: encode a PCM sample buffer to the raw byte
sequence of the provider's audio payload (the base64 layer is a bijection and
is elided, as in the decoder model). -/
def encodePCM (samples : List ℚ) : List Nat :=
  samples.flatMap fun s => int16ToBytes (encodeSample s)

/-! ## Text auto-fit layout (`createTextCache` / `calculateLines`, App.tsx)

`ctx.measureText` is a browser capability; it is abstracted as a function
from font size and text to a measured width (the source sets a font whose
only varying parts are the size and the fixed family, separately for the
English and the Hindi block).  `Math.floor(size * 0.85)` is modelled as the
exact rational floor: for every even size in 48, 46, …, 10 the double
rounding of `size * 0.85` lands on the same integer. -/

/-- The greedy word-wrap loop of `calculateLines`: push `currentLine` when
`measureText(testLine).width > maxWidth`. -/
def wrapGo (measure : String → ℚ) (maxWidth : ℚ) :
    List String → String → List String
  | [], current => [current]
  | w :: ws, current =>
      let testLine := current ++ " " ++ w
      if maxWidth < measure testLine then current :: wrapGo measure maxWidth ws w
      else wrapGo measure maxWidth ws testLine

/-- JavaScript `text.split(' ')` semantics: split at every single space
character (consecutive spaces yield empty pieces). -/
def splitWords : List Char → List (List Char)
  | [] => [[]]
  | c :: cs =>
      if c = ' ' then [] :: splitWords cs
      else
        match splitWords cs with
        | [] => [[c]]
        | t :: ts => (c :: t) :: ts

/-- The function `calculateLines(context, text, maxWidth)`: empty for the empty string
(`if (!text) return []`), else greedy wrap of `text.split(' ')`. -/
def calculateLines (measure : String → ℚ) (text : String) (maxWidth : ℚ) :
    List String :=
  if text = "" then []
  else
    match (splitWords text.data).map fun cs => String.mk cs with
    | [] => wrapGo measure maxWidth [] ""
    | w :: ws => wrapGo measure maxWidth ws w

/-- The layout state computed by the font-size loop of `createTextCache`:
`finalEnglishFontSize`, `finalHindiFontSize`, `englishLines`, `hindiLines`
and `totalTextHeight`. -/
structure TextFit where
  englishFontSize : Nat
  hindiFontSize : Nat
  englishLines : List String
  hindiLines : List String
  totalTextHeight : ℚ
deriving DecidableEq, Repr

/-- The body of one iteration of the font-size loop at a given `size`:
`MAX_TEXT_WIDTH = 1920/2 - 80 = 880`, English line height `size * 1.3`,
Hindi size `Math.floor(size * 0.85)` with line height `* 1.5`, plus a
25-unit gap when there are Hindi lines. -/
def fitAt (measureE measureH : Nat → String → ℚ) (english hindi : String)
    (size : Nat) : TextFit :=
  let hindiSize := size * 85 / 100
  let eLines := calculateLines (measureE size) english 880
  let hLines := calculateLines (measureH hindiSize) hindi 880
  let height : ℚ := eLines.length * ((size : ℚ) * (13/10)) +
    hLines.length * ((hindiSize : ℚ) * (3/2)) +
    (if 0 < hLines.length then 25 else 0)
  ⟨size, hindiSize, eLines, hLines, height⟩

/-- The loop `for (let size = 48; size >= 10; size -= 2)`, structural on the number of
remaining candidate sizes; when the loop exhausts every size without a fit,
the initial values (`finalEnglishFontSize = 0`, empty line lists,
`totalTextHeight = 0`) survive.  `MAX_TEXT_HEIGHT = 1080 - 80 = 1000`. -/
def createTextCacheGo (measureE measureH : Nat → String → ℚ)
    (english hindi : String) (size : Nat) : Nat → TextFit
  | 0 => ⟨0, 0, [], [], 0⟩
  | steps + 1 =>
      let f := fitAt measureE measureH english hindi size
      if f.totalTextHeight ≤ 1000 then f
      else createTextCacheGo measureE measureH english hindi (size - 2) steps

/-- The text auto-fit computation of `createTextCache` (the layout part; the
subsequent painting of the cached raster only consumes this state). -/
def createTextCache (measureE measureH : Nat → String → ℚ)
    (english hindi : String) : TextFit :=
  createTextCacheGo measureE measureH english hindi 48 20

/-- The candidate sizes tried by the loop, largest first. -/
def sizesFrom (size : Nat) : Nat → List Nat
  | 0 => []
  | steps + 1 => size :: sizesFrom (size - 2) steps

/-- The concrete candidate list 48, 46, …, 10. -/
def triedSizes : List Nat := sizesFrom 48 20

/-- A 40-word slide text (40 copies of `"a"`): with a measure that overflows
the half-frame width on every two-word line, the greedy wrap yields one line
per word, and 40 English plus 40 Hindi lines overflow the frame height at
every tried font size. -/
def manyA : String :=
  "a a a a a a a a a a a a a a a a a a a a a a a a a a a a a a a a a a a a a a a a"

/-! ## C2: slide durations -/

/-- C2: the computed slide duration is the decoded duration plus 0.5 when the
decoded duration exceeds 0.5 and the default 3.0 otherwise (absent narration
included); a decoded 0.2 gives 3.0, a decoded 2.0 gives 2.5, and decoded
durations [1.0, 0.3, 4.0] give per-slide durations [1.5, 3.0, 4.5] with a
total timeline duration of 9.0 under the zero-duration transitions. -/
theorem slideDuration_spec :
    (∀ d : ℚ, 1/2 < d → slideDuration (some d) = d + 1/2) ∧
    (∀ d : ℚ, d ≤ 1/2 → slideDuration (some d) = 3) ∧
    slideDuration none = 3 ∧
    slideDuration (some (1/5)) = 3 ∧
    slideDuration (some 2) = 5/2 ∧
    ([1, 3/10, 4].map fun d => slideDuration (some d)) = [3/2, 3, 9/2] ∧
    (buildTimeline ([1, 3/10, 4].map fun d => slideDuration (some d))
      transitionDuration).2 = 9 := by
  refine ⟨?_, ?_, rfl, by norm_num [slideDuration], by norm_num [slideDuration],
    by norm_num [slideDuration], ?_⟩
  · intro d hd
    simp only [slideDuration]
    rw [if_pos hd]
  · intro d hd
    simp only [slideDuration]
    rw [if_neg (not_lt.mpr hd)]
  · norm_num [slideDuration, buildTimeline, buildTimelineGo, transitionDuration]

/-- Witness for C2: the padding rule evaluated at the concrete decoded
durations 1.0 (above the threshold) and 0.4 (below it). -/
theorem slideDuration_spec_witness :
    slideDuration (some 1) = 1 + 1/2 ∧ slideDuration (some (2/5)) = 3 :=
  ⟨slideDuration_spec.1 1 (by norm_num), slideDuration_spec.2.1 (2/5) (by norm_num)⟩

/-! ## C6: decoder failure on malformed byte lengths -/

/-- Counterexample to C6 as stated: the empty payload has even byte length,
yet the decoder fails (`createBuffer` rejects the zero frame count), so "for
payloads of even byte length it succeeds" is false. -/
theorem getAudioBufferFromBase64_even_counterexample :
    ([] : List Nat).length % 2 = 0 ∧ getAudioBufferFromBase64 [] = none := by
  constructor
  · rfl
  · rfl

/-- C6 (amended): the decoder fails whenever the decoded byte sequence has
odd length; for non-empty payloads of even byte length it succeeds and
returns a decoded buffer, while the empty payload also fails because a
zero-frame buffer is rejected. -/
theorem getAudioBufferFromBase64_parity (data : List Nat) :
    (data.length % 2 = 1 → getAudioBufferFromBase64 data = none) ∧
    (data.length % 2 = 0 → data ≠ [] →
      ∃ buf, getAudioBufferFromBase64 data = some buf ∧
        buf.sampleRate = 24000 ∧ buf.numChannels = 1) ∧
    getAudioBufferFromBase64 [] = none := by
  refine ⟨?_, ?_, rfl⟩
  · intro h
    have h1 : data.length % 2 ≠ 0 := by omega
    simp [getAudioBufferFromBase64, h1]
  · intro h hne
    have hlen : data.length ≠ 0 := fun hl => hne (List.length_eq_zero.mp hl)
    have h1 : ¬ data.length % 2 ≠ 0 := by omega
    have h2 : ¬ data.length / 2 = 0 := by omega
    exact ⟨⟨pairsToSamples data, 24000, 1⟩,
      by simp [getAudioBufferFromBase64, h1, h2], rfl, rfl⟩

/-- Witness for C6: a one-byte payload is rejected and a two-byte payload
decodes successfully. -/
theorem getAudioBufferFromBase64_parity_witness :
    getAudioBufferFromBase64 [7] = none ∧
    ∃ buf, getAudioBufferFromBase64 [0, 0] = some buf ∧
      buf.sampleRate = 24000 ∧ buf.numChannels = 1 :=
  ⟨(getAudioBufferFromBase64_parity [7]).1 rfl,
    (getAudioBufferFromBase64_parity [0, 0]).2.1 rfl (by simp)⟩

/-! ## C9: zero-duration transitions are never selected by the render loop -/

/-- Every transition event in the built timeline carries the configured
transition duration. -/
theorem buildTimelineGo_transition_duration (td : ℚ) :
    ∀ (ds : List ℚ) (i : Nat) (t : ℚ) (e : TimelineEvent),
      e ∈ (buildTimelineGo td ds i t).1 → e.kind.isSlide = false →
      e.duration = td := by
  intro ds
  induction ds with
  | nil =>
      intro i t e he _
      simp [buildTimelineGo] at he
  | cons d ds ih =>
      intro i t e he hk
      cases ds with
      | nil =>
          simp [buildTimelineGo] at he
          subst he
          simp [EventKind.isSlide] at hk
      | cons d2 ds2 =>
          simp only [buildTimelineGo, List.mem_cons] at he
          rcases he with he | he | he
          · subst he
            simp [EventKind.isSlide] at hk
          · subst he
            rfl
          · exact ih (i + 1) (t + d + td) e he hk

/-- C9: with the configured zero transition duration, the render loop's
active-event lookup never yields a transition event, for any elapsed time and
any slide durations, so the transition-rendering branch runs on no frame. -/
theorem findActiveEvent_no_transition (durations : List ℚ) (elapsed : ℚ)
    (e : TimelineEvent)
    (hfind : findActiveEvent (buildTimeline durations transitionDuration).1
      elapsed = some e) :
    e.kind.isSlide = true := by
  by_contra hcon
  have hb : e.kind.isSlide = false := by
    revert hcon
    cases e.kind.isSlide <;> simp
  have hmem : e ∈ (buildTimeline durations transitionDuration).1 :=
    List.mem_of_find?_eq_some hfind
  have hdur : e.duration = transitionDuration :=
    buildTimelineGo_transition_duration transitionDuration durations 0 0 e hmem hb
  have hp := List.find?_some hfind
  simp only [Bool.and_eq_true, decide_eq_true_eq] at hp
  rw [hdur] at hp
  have : elapsed < e.startTime + 0 := by
    simpa [transitionDuration] using hp.2
  linarith [hp.1]

/-- Witness for C9: on the timeline of two slides with durations 1 and 2,
the lookup at elapsed time 3/2 selects the second slide event — a slide
event, as the theorem demands. -/
theorem findActiveEvent_no_transition_witness :
    findActiveEvent (buildTimeline [1, 2] transitionDuration).1 (3/2) =
      some ⟨.slide 1, 1, 2⟩ ∧
    (⟨.slide 1, 1, 2⟩ : TimelineEvent).kind.isSlide = true := by
  have hfind : findActiveEvent (buildTimeline [1, 2] transitionDuration).1 (3/2) =
      some ⟨.slide 1, 1, 2⟩ := by
    norm_num [findActiveEvent, buildTimeline, buildTimelineGo, transitionDuration,
      List.find?]
  exact ⟨hfind, findActiveEvent_no_transition [1, 2] (3/2) ⟨.slide 1, 1, 2⟩ hfind⟩

/-! ## C10: single-slide regeneration touches only its own fields -/

/-- C10: each regeneration update preserves the list length; at every
position the slide keeps its identity and every field other than the
regenerated ones, and slides whose id differs from the target are untouched
(the failure paths of the handlers skip the state update entirely, leaving
the list unchanged). -/
theorem applyRegenerate_frame (slides : List Slide) (targetId : Nat)
    (newImageUrl : Option String) (newHindi newScript : String)
    (newAudioData : Option String) :
    (applyRegenerateImage slides targetId newImageUrl).length = slides.length ∧
    (applyRegenerateTranslation slides targetId newHindi).length = slides.length ∧
    (applyRegenerateScript slides targetId newScript newAudioData).length =
      slides.length ∧
    ∀ j, j < slides.length → ∃ s si st ss,
      slides[j]? = some s ∧
      (applyRegenerateImage slides targetId newImageUrl)[j]? = some si ∧
      (applyRegenerateTranslation slides targetId newHindi)[j]? = some st ∧
      (applyRegenerateScript slides targetId newScript newAudioData)[j]? =
        some ss ∧
      si.id = s.id ∧ si.english = s.english ∧ si.hindi = s.hindi ∧
      si.script = s.script ∧ si.audioData = s.audioData ∧
      (s.id = targetId → si.imageUrl = newImageUrl) ∧
      (s.id ≠ targetId → si = s) ∧
      st.id = s.id ∧ st.english = s.english ∧ st.imageUrl = s.imageUrl ∧
      st.script = s.script ∧ st.audioData = s.audioData ∧
      (s.id = targetId → st.hindi = newHindi) ∧
      (s.id ≠ targetId → st = s) ∧
      ss.id = s.id ∧ ss.english = s.english ∧ ss.hindi = s.hindi ∧
      ss.imageUrl = s.imageUrl ∧
      (s.id = targetId → ss.script = newScript ∧ ss.audioData = newAudioData) ∧
      (s.id ≠ targetId → ss = s) := by
  refine ⟨by simp [applyRegenerateImage], by simp [applyRegenerateTranslation],
    by simp [applyRegenerateScript], ?_⟩
  intro j hj
  have hs : slides[j]? = some slides[j] := List.getElem?_eq_getElem hj
  set s := slides[j] with hsdef
  have himg : (applyRegenerateImage slides targetId newImageUrl)[j]? =
      some (if s.id = targetId then { s with imageUrl := newImageUrl } else s) := by
    rw [applyRegenerateImage, List.getElem?_map, hs]
    rfl
  have htr : (applyRegenerateTranslation slides targetId newHindi)[j]? =
      some (if s.id = targetId then { s with hindi := newHindi } else s) := by
    rw [applyRegenerateTranslation, List.getElem?_map, hs]
    rfl
  have hsc : (applyRegenerateScript slides targetId newScript newAudioData)[j]? =
      some (if s.id = targetId then
        { s with script := newScript, audioData := newAudioData } else s) := by
    rw [applyRegenerateScript, List.getElem?_map, hs]
    rfl
  by_cases hid : s.id = targetId
  · rw [if_pos hid] at himg htr hsc
    exact ⟨s, { s with imageUrl := newImageUrl }, { s with hindi := newHindi },
      { s with script := newScript, audioData := newAudioData }, hs, himg, htr, hsc,
      rfl, rfl, rfl, rfl, rfl, fun _ => rfl, fun h => absurd hid h,
      rfl, rfl, rfl, rfl, rfl, fun _ => rfl, fun h => absurd hid h,
      rfl, rfl, rfl, rfl, fun _ => ⟨rfl, rfl⟩, fun h => absurd hid h⟩
  · rw [if_neg hid] at himg htr hsc
    exact ⟨s, s, s, s, hs, himg, htr, hsc,
      rfl, rfl, rfl, rfl, rfl, fun h => absurd h hid, fun _ => rfl,
      rfl, rfl, rfl, rfl, rfl, fun h => absurd h hid, fun _ => rfl,
      rfl, rfl, rfl, rfl, fun h => absurd h hid, fun _ => rfl⟩

/-- Witness for C10: on a concrete two-slide list, regenerating the image of
slide 0 leaves slide 1 untouched. -/
theorem applyRegenerate_frame_witness :
    ∃ s si st ss,
      ([⟨0, "e0", "h0", none, "s0", none⟩,
        ⟨1, "e1", "h1", some "img1", "s1", some "au1"⟩] : List Slide)[1]? =
          some s ∧
      (applyRegenerateImage
        [⟨0, "e0", "h0", none, "s0", none⟩,
         ⟨1, "e1", "h1", some "img1", "s1", some "au1"⟩] 0 (some "new"))[1]? =
          some si ∧
      (applyRegenerateTranslation
        [⟨0, "e0", "h0", none, "s0", none⟩,
         ⟨1, "e1", "h1", some "img1", "s1", some "au1"⟩] 0 "nh")[1]? =
          some st ∧
      (applyRegenerateScript
        [⟨0, "e0", "h0", none, "s0", none⟩,
         ⟨1, "e1", "h1", some "img1", "s1", some "au1"⟩] 0 "ns" none)[1]? =
          some ss ∧
      si.id = s.id ∧ si.english = s.english ∧ si.hindi = s.hindi ∧
      si.script = s.script ∧ si.audioData = s.audioData ∧
      (s.id = 0 → si.imageUrl = some "new") ∧ (s.id ≠ 0 → si = s) ∧
      st.id = s.id ∧ st.english = s.english ∧ st.imageUrl = s.imageUrl ∧
      st.script = s.script ∧ st.audioData = s.audioData ∧
      (s.id = 0 → st.hindi = "nh") ∧ (s.id ≠ 0 → st = s) ∧
      ss.id = s.id ∧ ss.english = s.english ∧ ss.hindi = s.hindi ∧
      ss.imageUrl = s.imageUrl ∧
      (s.id = 0 → ss.script = "ns" ∧ ss.audioData = none) ∧
      (s.id ≠ 0 → ss = s) := by
  have h := applyRegenerate_frame
    [⟨0, "e0", "h0", none, "s0", none⟩,
     ⟨1, "e1", "h1", some "img1", "s1", some "au1"⟩] 0 (some "new") "nh" "ns" none
  exact h.2.2.2 1 (by norm_num)

/-! ## C1: structure of the built timeline -/

/-- The built event list of a non-empty duration list has `2n - 1` events. -/
theorem buildTimelineGo_length (td : ℚ) :
    ∀ (ds : List ℚ), ds ≠ [] → ∀ (i : Nat) (t : ℚ),
      (buildTimelineGo td ds i t).1.length = 2 * ds.length - 1 := by
  intro ds
  induction ds with
  | nil => intro h; exact absurd rfl h
  | cons d ds ih =>
      intro _ i t
      cases ds with
      | nil => simp [buildTimelineGo]
      | cons d2 ds2 =>
          have h2 := ih (by simp) (i + 1) (t + d + td)
          simp only [buildTimelineGo, List.length_cons] at h2 ⊢
          omega

/-- The first built event starts at the running time the loop was entered
with. -/
theorem buildTimelineGo_head (td : ℚ) :
    ∀ (ds : List ℚ), ds ≠ [] → ∀ (i : Nat) (t : ℚ),
      ((buildTimelineGo td ds i t).1.getD 0 dummyEvent).startTime = t := by
  intro ds
  cases ds with
  | nil => intro h; exact absurd rfl h
  | cons d ds =>
      intro _ i t
      cases ds with
      | nil => rfl
      | cons d2 ds2 => rfl

/-- Contiguity: every built event starts where the previous one ends. -/
theorem buildTimelineGo_contig (td : ℚ) :
    ∀ (ds : List ℚ) (i : Nat) (t : ℚ) (j : Nat),
      j + 1 < (buildTimelineGo td ds i t).1.length →
      ((buildTimelineGo td ds i t).1.getD (j + 1) dummyEvent).startTime =
        ((buildTimelineGo td ds i t).1.getD j dummyEvent).startTime +
          ((buildTimelineGo td ds i t).1.getD j dummyEvent).duration := by
  intro ds
  induction ds with
  | nil => intro i t j hj; simp [buildTimelineGo] at hj
  | cons d ds ih =>
      intro i t j hj
      cases ds with
      | nil => simp [buildTimelineGo] at hj
      | cons d2 ds2 =>
          simp only [buildTimelineGo, List.length_cons] at hj ⊢
          match j with
          | 0 => simp
          | 1 =>
              have hh := buildTimelineGo_head td (d2 :: ds2) (by simp) (i + 1)
                (t + d + td)
              simp only [List.getD_cons_succ, List.getD_cons_zero]
              rw [hh]
          | Nat.succ (Nat.succ k) =>
              have hk : k + 1 < (buildTimelineGo td (d2 :: ds2) (i + 1)
                  (t + d + td)).1.length := by omega
              have := ih (i + 1) (t + d + td) k hk
              simpa using this

/-- The final running time is the entry time plus the sum of all event
durations. -/
theorem buildTimelineGo_total (td : ℚ) :
    ∀ (ds : List ℚ) (i : Nat) (t : ℚ),
      (buildTimelineGo td ds i t).2 =
        t + ((buildTimelineGo td ds i t).1.map TimelineEvent.duration).sum := by
  intro ds
  induction ds with
  | nil => intro i t; simp [buildTimelineGo]
  | cons d ds ih =>
      intro i t
      cases ds with
      | nil => simp [buildTimelineGo]
      | cons d2 ds2 =>
          have h2 := ih (i + 1) (t + d + td)
          simp only [buildTimelineGo, List.map_cons, List.sum_cons]
          rw [h2]
          ring

/-- Alternation: events at even positions are slide events, events at odd
positions are transition events. -/
theorem buildTimelineGo_parity (td : ℚ) :
    ∀ (ds : List ℚ) (i : Nat) (t : ℚ) (j : Nat),
      j < (buildTimelineGo td ds i t).1.length →
      (((buildTimelineGo td ds i t).1.getD j dummyEvent).kind.isSlide = true ↔
        j % 2 = 0) := by
  intro ds
  induction ds with
  | nil => intro i t j hj; simp [buildTimelineGo] at hj
  | cons d ds ih =>
      intro i t j hj
      cases ds with
      | nil =>
          simp only [buildTimelineGo, List.length_cons, List.length_nil] at hj
          match j with
          | 0 => simp [buildTimelineGo, EventKind.isSlide]
          | Nat.succ k => omega
      | cons d2 ds2 =>
          simp only [buildTimelineGo, List.length_cons] at hj ⊢
          match j with
          | 0 => simp [buildTimelineGo, EventKind.isSlide]
          | 1 => simp [buildTimelineGo, EventKind.isSlide]
          | Nat.succ (Nat.succ k) =>
              have hk : k < (buildTimelineGo td (d2 :: ds2) (i + 1)
                  (t + d + td)).1.length := by omega
              have hcore := ih (i + 1) (t + d + td) k hk
              have hmod : (k + 1 + 1) % 2 = k % 2 := by omega
              simpa [hmod] using hcore

/-- Counts: a list of `n` durations yields `n` slide events and `n - 1`
transition events. -/
theorem buildTimelineGo_counts (td : ℚ) :
    ∀ (ds : List ℚ), ds ≠ [] → ∀ (i : Nat) (t : ℚ),
      ((buildTimelineGo td ds i t).1.filter fun e => e.kind.isSlide).length =
        ds.length ∧
      ((buildTimelineGo td ds i t).1.filter fun e => !e.kind.isSlide).length =
        ds.length - 1 := by
  intro ds
  induction ds with
  | nil => intro h; exact absurd rfl h
  | cons d ds ih =>
      intro _ i t
      cases ds with
      | nil => constructor <;> rfl
      | cons d2 ds2 =>
          have h2 := ih (by simp) (i + 1) (t + d + td)
          simp only [List.length_cons] at h2
          simp [buildTimelineGo, List.filter_cons, EventKind.isSlide] at h2 ⊢
          omega

/-- C1: for every non-empty list of resolved slide durations the built
timeline consists of `2n - 1` events — `n` slide events and `n - 1`
transition events, slide events at the even positions and transition events
at the odd ones, so the sequence alternates Slide, Transition, …, Slide with
no trailing transition; the first event starts at 0, each event starts where
the previous one ends, and `totalDuration` is the sum of all event
durations. -/
theorem buildTimeline_structure (durations : List ℚ) (td : ℚ)
    (h : durations ≠ []) :
    (buildTimeline durations td).1.length = 2 * durations.length - 1 ∧
    ((buildTimeline durations td).1.filter fun e => e.kind.isSlide).length =
      durations.length ∧
    ((buildTimeline durations td).1.filter fun e => !e.kind.isSlide).length =
      durations.length - 1 ∧
    (∀ j, j < (buildTimeline durations td).1.length →
      (((buildTimeline durations td).1.getD j dummyEvent).kind.isSlide = true ↔
        j % 2 = 0)) ∧
    ((buildTimeline durations td).1.getD 0 dummyEvent).startTime = 0 ∧
    (∀ j, j + 1 < (buildTimeline durations td).1.length →
      ((buildTimeline durations td).1.getD (j + 1) dummyEvent).startTime =
        ((buildTimeline durations td).1.getD j dummyEvent).startTime +
          ((buildTimeline durations td).1.getD j dummyEvent).duration) ∧
    (buildTimeline durations td).2 =
      ((buildTimeline durations td).1.map TimelineEvent.duration).sum := by
  refine ⟨buildTimelineGo_length td durations h 0 0,
    (buildTimelineGo_counts td durations h 0 0).1,
    (buildTimelineGo_counts td durations h 0 0).2,
    fun j hj => buildTimelineGo_parity td durations 0 0 j hj,
    buildTimelineGo_head td durations h 0 0,
    fun j hj => buildTimelineGo_contig td durations 0 0 j hj, ?_⟩
  have := buildTimelineGo_total td durations 0 0
  simpa [buildTimeline] using this

/-- Witness for C1: the structure theorem evaluated on the two-slide
timeline with durations 1 and 2 and zero-length transitions. -/
theorem buildTimeline_structure_witness :
    (buildTimeline [1, 2] 0).1.length = 2 * 2 - 1 ∧
    (buildTimeline [1, 2] 0).2 =
      ((buildTimeline [1, 2] 0).1.map TimelineEvent.duration).sum := by
  have h := buildTimeline_structure [1, 2] 0 (by simp)
  exact ⟨h.1, h.2.2.2.2.2.2⟩

/-! ## C3 and C4: segmentation output -/

/-- Trimming never lengthens a character list. -/
theorem trimChars_length_le (l : List Char) : (trimChars l).length ≤ l.length := by
  unfold trimChars
  calc ((l.dropWhile Char.isWhitespace).reverse.dropWhile
          Char.isWhitespace).reverse.length
      = ((l.dropWhile Char.isWhitespace).reverse.dropWhile
          Char.isWhitespace).length := List.length_reverse _
    _ ≤ (l.dropWhile Char.isWhitespace).reverse.length :=
        (List.dropWhile_sublist _).length_le
    _ = (l.dropWhile Char.isWhitespace).length := List.length_reverse _
    _ ≤ l.length := (List.dropWhile_sublist _).length_le

/-- Counterexample to C3 as stated: the input `"."` is non-empty, yet with
the provider call failing the fallback splitter returns the empty sequence
(the split yields only fragments whose trimmed length is not greater than 2),
so `segmentText` does not always return a non-empty sequence on non-empty
input. -/
theorem splitTextIntoSentences_empty_counterexample :
    ("." : String) ≠ "" ∧ splitTextIntoSentences "." none = [] := by
  constructor
  · decide
  · rfl

/-- C3 (amended): every entry `segmentText` returns is non-blank, and when
the provider call fails every entry of the fallback splitter's output is
non-blank and longer than 2 characters; the returned sequence itself may be
empty (for example on the non-empty input `"."`). -/
theorem splitTextIntoSentences_entries (text : String)
    (providerResult : Option (List String)) :
    (∀ s ∈ splitTextIntoSentences text providerResult, trimChars s.data ≠ []) ∧
    (∀ s ∈ splitTextIntoSentences text none,
      trimChars s.data ≠ [] ∧ 2 < s.data.length) := by
  have hfall : ∀ s ∈ fallbackSplit text, trimChars s.data ≠ [] ∧ 2 < s.data.length := by
    intro s hs
    have hlen : 2 < (trimChars s.data).length := by
      have := (List.mem_filter.mp hs).2
      simpa using this
    constructor
    · intro hnil
      rw [hnil] at hlen
      simp at hlen
    · exact lt_of_lt_of_le hlen (trimChars_length_le s.data)
  constructor
  · intro s hs
    cases providerResult with
    | some sentences =>
        have := (List.mem_filter.mp hs).2
        simpa using this
    | none => exact (hfall s hs).1
  · intro s hs
    exact hfall s hs

/-- Witness for C3: on the concrete input of the spec's end-to-end scenario
with the provider failing, the single returned fallback segment is non-blank
and longer than 2 characters. -/
theorem splitTextIntoSentences_entries_witness :
    trimChars ("The woods are lovely, dark and deep, but I have promises to keep"
      : String).data ≠ [] ∧
    2 < ("The woods are lovely, dark and deep, but I have promises to keep"
      : String).data.length := by
  have h := (splitTextIntoSentences_entries
    "The woods are lovely, dark and deep, but I have promises to keep." none).2
  exact h "The woods are lovely, dark and deep, but I have promises to keep"
    (by decide)

/-- Counterexample to C4 as stated: with the provider failing, the fallback
on the literal input yields one segment, not two — the rule splits on
newline/period runs only, and the only period of the literal is final. -/
theorem fallback_frost_counterexample :
    (splitTextIntoSentences
      "The woods are lovely, dark and deep, but I have promises to keep."
      none).length ≠ 2 := by
  decide

/-- C4 (amended): with the provider failing, `segmentText` on the literal
input returns exactly one fallback segment: the whole text with the trailing
period removed. -/
theorem fallback_frost :
    splitTextIntoSentences
      "The woods are lovely, dark and deep, but I have promises to keep."
      none =
      ["The woods are lovely, dark and deep, but I have promises to keep"] := by
  decide

/-! ## C5: the retry policy -/

/-- C5: with the source's defaults (`maxRetries = 3`, `initialDelay = 2000`)
the wrapped operation runs at most 3 times; the delay slept before the k-th
retry is `2000 * 2^(k-1)` (2000, then 4000); if an attempt succeeds its
result is returned unchanged; and if every attempt fails the error of the
final attempt is re-raised. -/
theorem withRetry_policy {ε α : Type} (f : Nat → Except ε α) :
    (withRetry f 3 2000).executions ≤ 3 ∧
    (withRetry f 3 2000).delays =
      [2000, 4000].take ((withRetry f 3 2000).executions - 1) ∧
    (∀ j, j < (withRetry f 3 2000).delays.length →
      (withRetry f 3 2000).delays.getD j 0 = 2000 * 2 ^ j) ∧
    (∀ v k, k < 3 → f k = .ok v → (∀ j, j < k → ∃ e, f j = .error e) →
      (withRetry f 3 2000).result = some (.ok v)) ∧
    ((∀ k, k < 3 → ∃ e, f k = .error e) →
      ∃ e, f 2 = .error e ∧ (withRetry f 3 2000).result = some (.error e)) := by
  rcases h0 : f 0 with e0 | v0
  · rcases h1 : f 1 with e1 | v1
    · rcases h2 : f 2 with e2 | v2
      · have ht : withRetry f 3 2000 = ⟨some (.error e2), 3, [2000, 4000]⟩ := by
          simp [withRetry, retryGo, h0, h1, h2]
        refine ⟨by simp [ht], by simp [ht], ?_, ?_, ?_⟩
        · intro j hj
          simp [ht] at hj ⊢
          interval_cases j <;> norm_num [List.getD]
        · intro v k hk hok _
          interval_cases k
          · rw [h0] at hok; simp at hok
          · rw [h1] at hok; simp at hok
          · rw [h2] at hok; simp at hok
        · intro _
          exact ⟨e2, rfl, by simp [ht]⟩
      · have ht : withRetry f 3 2000 = ⟨some (.ok v2), 3, [2000, 4000]⟩ := by
          simp [withRetry, retryGo, h0, h1, h2]
        refine ⟨by simp [ht], by simp [ht], ?_, ?_, ?_⟩
        · intro j hj
          simp [ht] at hj ⊢
          interval_cases j <;> norm_num [List.getD]
        · intro v k hk hok _
          interval_cases k
          · rw [h0] at hok; simp at hok
          · rw [h1] at hok; simp at hok
          · rw [h2] at hok
            have hv : v2 = v := by simpa using hok
            subst hv
            rw [ht]
        · intro hall
          obtain ⟨e, he⟩ := hall 2 (by norm_num)
          rw [h2] at he
          simp at he
    · have ht : withRetry f 3 2000 = ⟨some (.ok v1), 2, [2000]⟩ := by
        simp [withRetry, retryGo, h0, h1]
      refine ⟨by simp [ht], by simp [ht], ?_, ?_, ?_⟩
      · intro j hj
        simp [ht] at hj ⊢
        have hj0 : j = 0 := by omega
        subst hj0
        norm_num [List.getD]
      · intro v k hk hok hprev
        interval_cases k
        · rw [h0] at hok; simp at hok
        · rw [h1] at hok
          have hv : v1 = v := by simpa using hok
          subst hv
          rw [ht]
        · obtain ⟨e, he⟩ := hprev 1 (by norm_num)
          rw [h1] at he
          simp at he
      · intro hall
        obtain ⟨e, he⟩ := hall 1 (by norm_num)
        rw [h1] at he
        simp at he
  · have ht : withRetry f 3 2000 = ⟨some (.ok v0), 1, []⟩ := by
      simp [withRetry, retryGo, h0]
    refine ⟨by simp [ht], by simp [ht], ?_, ?_, ?_⟩
    · intro j hj
      rw [ht] at hj
      simp at hj
    · intro v k hk hok hprev
      interval_cases k
      · rw [h0] at hok
        have hv : v0 = v := by simpa using hok
        subst hv
        rw [ht]
      · obtain ⟨e, he⟩ := hprev 0 (by norm_num)
        rw [h0] at he
        simp at he
      · obtain ⟨e, he⟩ := hprev 0 (by norm_num)
        rw [h0] at he
        simp at he
    · intro hall
      obtain ⟨e, he⟩ := hall 0 (by norm_num)
      rw [h0] at he
      simp at he

/-- Witness for C5: for an operation that fails once and then succeeds with
the value 5, the wrapper returns 5 unchanged, runs the operation twice, and
sleeps exactly the single backoff delay 2000. -/
theorem withRetry_policy_witness :
    (withRetry (fun k => if k = 0 then (Except.error 0 : Except Nat Nat)
      else Except.ok 5) 3 2000).result = some (Except.ok 5) ∧
    (withRetry (fun k => if k = 0 then (Except.error 0 : Except Nat Nat)
      else Except.ok 5) 3 2000).executions ≤ 3 := by
  have h := withRetry_policy (fun k => if k = 0 then
    (Except.error 0 : Except Nat Nat) else Except.ok 5)
  refine ⟨h.2.2.2.1 5 1 (by norm_num) (by norm_num) ?_, h.1⟩
  intro j hj
  have hj0 : j = 0 := by omega
  subst hj0
  exact ⟨0, rfl⟩

/-! ## C7: PCM decode is the inverse of the spec's encoder up to quantisation -/

/-- The quantised sample is always a representable signed 16-bit value. -/
theorem encodeSample_range (s : ℚ) :
    -32768 ≤ encodeSample s ∧ encodeSample s ≤ 32767 := by
  unfold encodeSample
  omega

/-- Serialising a representable signed 16-bit value to two little-endian
bytes and reinterpreting them recovers the value. -/
theorem bytesToInt16_int16ToBytes (v : Int) (h1 : -32768 ≤ v)
    (h2 : v ≤ 32767) :
    bytesToInt16 ((v % 65536).toNat % 256) ((v % 65536).toNat / 256) = v := by
  unfold bytesToInt16
  split <;> omega

/-- Decoding the encoded byte stream yields exactly the quantised samples. -/
theorem pairsToSamples_encodePCM (l : List ℚ) :
    pairsToSamples (encodePCM l) =
      l.map fun s => ((encodeSample s : ℤ) : ℚ) / 32768 := by
  induction l with
  | nil => rfl
  | cons s l ih =>
      have hr := encodeSample_range s
      have hb := bytesToInt16_int16ToBytes (encodeSample s) hr.1 hr.2
      simp only [encodePCM, List.flatMap_cons, int16ToBytes, List.cons_append,
        List.nil_append, List.map_cons]
      rw [pairsToSamples, hb]
      simp only [encodePCM, int16ToBytes] at ih
      rw [ih]

/-- Each sample becomes exactly two bytes. -/
theorem encodePCM_length (l : List ℚ) :
    (encodePCM l).length = 2 * l.length := by
  induction l with
  | nil => rfl
  | cons s l ih =>
      simp only [encodePCM, List.flatMap_cons, int16ToBytes, List.cons_append,
        List.nil_append, List.length_cons, List.length_cons]
      simp only [encodePCM, int16ToBytes] at ih
      rw [ih]
      ring

/-- Quantisation error of one sample is at most one least significant bit. -/
theorem encodeSample_quant (s : ℚ) (h1 : -1 ≤ s) (h2 : s ≤ 1) :
    |((encodeSample s : ℤ) : ℚ) / 32768 - s| ≤ 1 / 32768 := by
  have hzl : ((⌊s * 32768⌋ : ℤ) : ℚ) ≤ s * 32768 := Int.floor_le _
  have hzu : s * 32768 < (⌊s * 32768⌋ : ℤ) + 1 := Int.lt_floor_add_one _
  have hz_low : (-32768 : ℤ) ≤ ⌊s * 32768⌋ := by
    apply Int.le_floor.mpr
    push_cast
    linarith
  by_cases hz : ⌊s * 32768⌋ ≤ 32767
  · have he : encodeSample s = ⌊s * 32768⌋ := by
      unfold encodeSample
      rw [min_eq_right hz, max_eq_right hz_low]
    rw [he, abs_le]
    constructor <;> linarith
  · have hz32768 : (32768 : ℤ) ≤ ⌊s * 32768⌋ := by omega
    have hcast : (32768 : ℚ) ≤ ((⌊s * 32768⌋ : ℤ) : ℚ) := by exact_mod_cast hz32768
    have hs1 : (1 : ℚ) ≤ s := by linarith
    have hseq : s = 1 := le_antisymm h2 hs1
    subst hseq
    have he : encodeSample 1 = 32767 := by
      unfold encodeSample
      norm_num
    rw [he, abs_le]
    constructor <;> norm_num

/-- Counterexample to C7 as stated: the empty sample buffer (every value
vacuously in [-1, 1]) encodes to the empty payload, whose decode fails
outright, so the decode-of-encode round-trip does not hold for it. -/
theorem decode_encode_empty_counterexample :
    encodePCM [] = [] ∧ getAudioBufferFromBase64 (encodePCM []) = none :=
  ⟨rfl, rfl⟩

/-- C7 (amended): for every non-empty sample buffer with values in [-1, 1],
encoding to 16-bit little-endian PCM and decoding back succeeds, yields a
mono buffer at 24000 Hz with one decoded sample (an integer divided by
32768) per original sample, and every decoded sample equals the original
within 1/32768. -/
theorem decode_encode_roundtrip (samples : List ℚ) (hne : samples ≠ [])
    (hrange : ∀ s ∈ samples, -1 ≤ s ∧ s ≤ 1) :
    ∃ buf, getAudioBufferFromBase64 (encodePCM samples) = some buf ∧
      buf.sampleRate = 24000 ∧ buf.numChannels = 1 ∧
      buf.samples.length = samples.length ∧
      ∀ j, j < samples.length →
        |buf.samples.getD j 0 - samples.getD j 0| ≤ 1 / 32768 := by
  have hlen : (encodePCM samples).length = 2 * samples.length :=
    encodePCM_length samples
  have h1 : ¬ (encodePCM samples).length % 2 ≠ 0 := by omega
  have h2 : ¬ (encodePCM samples).length / 2 = 0 := by
    have : samples.length ≠ 0 := fun h => hne (List.length_eq_zero.mp h)
    omega
  refine ⟨⟨pairsToSamples (encodePCM samples), 24000, 1⟩,
    by simp [getAudioBufferFromBase64, h1, h2], rfl, rfl, ?_, ?_⟩
  · rw [pairsToSamples_encodePCM, List.length_map]
  · intro j hj
    have hmem : samples[j] ∈ samples := List.getElem_mem hj
    obtain ⟨hr1, hr2⟩ := hrange _ hmem
    have e1 : (pairsToSamples (encodePCM samples)).getD j 0 =
        ((encodeSample samples[j] : ℤ) : ℚ) / 32768 := by
      rw [pairsToSamples_encodePCM, List.getD_eq_getElem?_getD,
        List.getElem?_map, List.getElem?_eq_getElem hj]
      rfl
    have e2 : samples.getD j 0 = samples[j] := by
      rw [List.getD_eq_getElem?_getD, List.getElem?_eq_getElem hj]
      rfl
    rw [e1, e2]
    exact encodeSample_quant _ hr1 hr2

/-- Witness for C7: the two-sample buffer [1, -1/2] round-trips within the
quantisation tolerance. -/
theorem decode_encode_roundtrip_witness :
    ∃ buf, getAudioBufferFromBase64 (encodePCM [1, -1/2]) = some buf ∧
      buf.sampleRate = 24000 ∧ buf.numChannels = 1 ∧
      buf.samples.length = ([1, -1/2] : List ℚ).length ∧
      ∀ j, j < ([1, -1/2] : List ℚ).length →
        |buf.samples.getD j 0 - ([1, -1/2] : List ℚ).getD j 0| ≤ 1 / 32768 := by
  apply decode_encode_roundtrip
  · simp
  · intro s hs
    simp at hs
    rcases hs with rfl | rfl <;> norm_num

/-! ## C8: the font auto-fit loop and its no-fit behaviour -/

/-- The font-size loop is the first-fit search over its candidate sizes,
with the zero/empty initial state when no candidate fits. -/
theorem createTextCacheGo_eq_find (mE mH : Nat → String → ℚ)
    (english hindi : String) :
    ∀ (steps size : Nat),
      createTextCacheGo mE mH english hindi size steps =
        match (sizesFrom size steps).find? (fun sz =>
          decide ((fitAt mE mH english hindi sz).totalTextHeight ≤ 1000)) with
        | some sz => fitAt mE mH english hindi sz
        | none => ⟨0, 0, [], [], 0⟩ := by
  intro steps
  induction steps with
  | zero => intro size; rfl
  | succ k ih =>
      intro size
      simp only [createTextCacheGo, sizesFrom]
      by_cases hfit : (fitAt mE mH english hindi size).totalTextHeight ≤ 1000
      · rw [if_pos hfit, List.find?_cons_of_pos _ (by simp [hfit])]
      · rw [if_neg hfit, List.find?_cons_of_neg _ (by simp [hfit]),
          ih (size - 2)]

/-- On a strictly descending list, `find?` returns the largest element
satisfying the predicate. -/
theorem find?_descending_largest (p : Nat → Bool) :
    ∀ l : List Nat, l.Pairwise (· > ·) → ∀ x ∈ l, p x = true →
      ∃ y, l.find? p = some y ∧ x ≤ y := by
  intro l
  induction l with
  | nil => intro _ x hx; simp at hx
  | cons a l ih =>
      intro hpw x hx hpx
      rcases List.mem_cons.mp hx with rfl | hx2
      · exact ⟨x, List.find?_cons_of_pos _ hpx, le_refl x⟩
      · cases hpa : p a with
        | false =>
            obtain ⟨y, hy, hxy⟩ := ih (List.pairwise_cons.mp hpw).2 x hx2 hpx
            refine ⟨y, ?_, hxy⟩
            rw [List.find?_cons_of_neg _ (by simp [hpa])]
            exact hy
        | true =>
            have hlt : a > x := (List.pairwise_cons.mp hpw).1 x hx2
            exact ⟨a, List.find?_cons_of_pos _ hpa, le_of_lt hlt⟩

/-- C8 (amended): the auto-fit loop tries the candidate sizes 48, 46, …, 10
stepping down by 2 and selects the largest candidate whose layout fits
within the 1000-unit height budget; when no candidate fits, the resulting
layout is the zero/empty initial state (font size 0, no lines) — not the
smallest tried size 10. -/
theorem createTextCache_selection (mE mH : Nat → String → ℚ)
    (english hindi : String) :
    triedSizes =
      [48, 46, 44, 42, 40, 38, 36, 34, 32, 30, 28, 26, 24, 22, 20, 18, 16, 14,
        12, 10] ∧
    createTextCache mE mH english hindi =
      (match triedSizes.find? (fun sz =>
          decide ((fitAt mE mH english hindi sz).totalTextHeight ≤ 1000)) with
       | some sz => fitAt mE mH english hindi sz
       | none => ⟨0, 0, [], [], 0⟩) ∧
    (∀ sz ∈ triedSizes, (fitAt mE mH english hindi sz).totalTextHeight ≤ 1000 →
      ∃ top, sz ≤ top ∧
        createTextCache mE mH english hindi = fitAt mE mH english hindi top ∧
        (fitAt mE mH english hindi top).totalTextHeight ≤ 1000) ∧
    ((∀ sz ∈ triedSizes,
        ¬ (fitAt mE mH english hindi sz).totalTextHeight ≤ 1000) →
      createTextCache mE mH english hindi = ⟨0, 0, [], [], 0⟩) := by
  have hchar := createTextCacheGo_eq_find mE mH english hindi 20 48
  have hpw : triedSizes.Pairwise (· > ·) := by decide
  refine ⟨by decide, hchar, ?_, ?_⟩
  · intro sz hsz hfit
    obtain ⟨top, htop, hle⟩ := find?_descending_largest
      (fun sz2 => decide ((fitAt mE mH english hindi sz2).totalTextHeight ≤ 1000))
      triedSizes hpw sz hsz (by simp [hfit])
    have htopfit : (fitAt mE mH english hindi top).totalTextHeight ≤ 1000 := by
      have hsome := List.find?_some htop
      simpa using hsome
    refine ⟨top, hle, ?_, htopfit⟩
    rw [createTextCache, hchar]
    rw [show sizesFrom 48 20 = triedSizes from rfl, htop]
  · intro hnone
    have hfind : triedSizes.find? (fun sz =>
        decide ((fitAt mE mH english hindi sz).totalTextHeight ≤ 1000)) = none :=
      List.find?_eq_none.mpr fun x hx => by simp [hnone x hx]
    rw [createTextCache, hchar]
    rw [show sizesFrom 48 20 = triedSizes from rfl, hfind]

/-- Witness for C8: for one-word texts under a measure of width 0 the layout
fits at size 10, so the loop selects some size at least 10 whose layout
fits. -/
theorem createTextCache_selection_witness :
    ∃ top, 10 ≤ top ∧
      createTextCache (fun _ _ => 0) (fun _ _ => 0) "hi" "ok" =
        fitAt (fun _ _ => 0) (fun _ _ => 0) "hi" "ok" top ∧
      (fitAt (fun _ _ => 0) (fun _ _ => 0) "hi" "ok" top).totalTextHeight ≤
        1000 := by
  have hclE : calculateLines ((fun _ _ => (0 : ℚ)) 10) "hi" 880 = ["hi"] := by
    rw [calculateLines, if_neg (by decide)]
    rw [show (splitWords ("hi" : String).data).map (fun cs => String.mk cs) =
      ["hi"] from by decide]
    rfl
  have hclH : calculateLines ((fun _ _ => (0 : ℚ)) (10 * 85 / 100)) "ok" 880 =
      ["ok"] := by
    rw [calculateLines, if_neg (by decide)]
    rw [show (splitWords ("ok" : String).data).map (fun cs => String.mk cs) =
      ["ok"] from by decide]
    rfl
  apply (createTextCache_selection (fun _ _ => 0) (fun _ _ => 0)
    "hi" "ok").2.2.1 10 (by decide)
  show (fitAt (fun _ _ => 0) (fun _ _ => 0) "hi" "ok" 10).totalTextHeight ≤ 1000
  simp only [fitAt, hclE, hclH]
  norm_num

/-- Every two-word test line overflows under the constant measure 881, so
the greedy wrap emits one line per remaining word plus the current line. -/
theorem wrapGo_overflow (ws : List String) (current : String) :
    (wrapGo (fun _ => (881 : ℚ)) 880 ws current).length = ws.length + 1 := by
  induction ws generalizing current with
  | nil => rfl
  | cons w ws ih =>
      rw [wrapGo, if_pos (by norm_num)]
      simp [ih]

/-- The 40-word text splits into 40 words. -/
theorem manyA_split :
    (splitWords manyA.data).map (fun cs => String.mk cs) =
      "a" :: List.replicate 39 "a" := by
  decide

/-- Under the constant measure 881 the 40-word text wraps to 40 lines. -/
theorem calculateLines_manyA :
    (calculateLines (fun _ => (881 : ℚ)) manyA 880).length = 40 := by
  rw [calculateLines, if_neg (by decide), manyA_split]
  rw [wrapGo_overflow]
  simp

/-- Counterexample to C8 as stated: for the 40-word slide under the
overflowing measure no tried size fits, and the computed layout has font
size 0 and empty line lists — it does not fall back to the smallest tried
size 10. -/
theorem createTextCache_no_fallback_counterexample :
    (∀ sz ∈ triedSizes,
      ¬ (fitAt (fun _ _ => 881) (fun _ _ => 881) manyA manyA
          sz).totalTextHeight ≤ 1000) ∧
    createTextCache (fun _ _ => 881) (fun _ _ => 881) manyA manyA =
      ⟨0, 0, [], [], 0⟩ ∧
    (createTextCache (fun _ _ => 881) (fun _ _ => 881) manyA
      manyA).englishFontSize ≠ 10 := by
  have hheight : ∀ sz : Nat,
      (fitAt (fun _ _ => 881) (fun _ _ => 881) manyA manyA
        sz).totalTextHeight =
        40 * ((sz : ℚ) * (13/10)) + 40 * (((sz * 85 / 100 : ℕ) : ℚ) * (3/2)) +
          25 := by
    intro sz
    simp only [fitAt, calculateLines_manyA]
    norm_num
  have hnofit : ∀ sz ∈ triedSizes,
      ¬ (fitAt (fun _ _ => 881) (fun _ _ => 881) manyA manyA
          sz).totalTextHeight ≤ 1000 := by
    intro sz hsz
    rw [hheight]
    have hsz2 : sz ∈ [48, 46, 44, 42, 40, 38, 36, 34, 32, 30, 28, 26, 24, 22,
        20, 18, 16, 14, 12, 10] := by
      rw [show triedSizes = [48, 46, 44, 42, 40, 38, 36, 34, 32, 30, 28, 26,
        24, 22, 20, 18, 16, 14, 12, 10] from by decide] at hsz
      exact hsz
    fin_cases hsz2 <;> norm_num
  have hfind : triedSizes.find? (fun sz =>
      decide ((fitAt (fun _ _ => 881) (fun _ _ => 881) manyA manyA
        sz).totalTextHeight ≤ 1000)) = none :=
    List.find?_eq_none.mpr fun x hx => by simp [hnofit x hx]
  have hempty : createTextCache (fun _ _ => 881) (fun _ _ => 881) manyA manyA =
      ⟨0, 0, [], [], 0⟩ := by
    rw [createTextCache, createTextCacheGo_eq_find]
    rw [show sizesFrom 48 20 = triedSizes from rfl, hfind]
  refine ⟨hnofit, hempty, ?_⟩
  rw [hempty]
  decide

end Chuha
